import Mathlib

/-!
# git-air: formal model of repository discovery, sync engine and orchestrator

This file gives a shallow embedding of the core of `src/git-air.ts`
(and the near-duplicate variant in `src/unnamed/part_000`):

* the recursive repository-discovery walkers (`findAllGitRepositoriesSimple`,
  `findAllGitRepositories`),
* the per-repository sync engine (`gitCommitAndPush` with its helpers
  `attemptAutoFix`, `askAIForSolution`, `generateCommitMessageWithAI`,
  `tryFallbackAIs`, `gitCommitAndPushWithDetails`),
* the run orchestrator loop of `runGitTasks`.

External effects (the `git` binary, the filesystem, the AI oracle commands)
are modelled by explicit environments: each program point that invokes an
external command has a corresponding environment field giving that
result of each invocation (`Except` for commands whose failure is observed as a
thrown exception in the source).  Every function additionally returns the
trace of external commands it issued, so that "command X is never issued"
claims are statable.
-/

/-- Strings are modelled as lists of characters so that all string
operations used by the source (`trim`, `includes`, `split`, `toLowerCase`,
`substring`) are plain structural recursion, evaluable by the kernel. -/
abbrev Str := List Char

/-- The character data of a Lean string literal. -/
def strOf (s : String) : Str := s.data

/-- JavaScript character-level whitespace test used by `trim`
(the source only ever trims git/CLI output, where the relevant whitespace
is spaces, tabs, carriage returns and newlines). -/
def isWS (c : Char) : Bool := c == ' ' || c == '\t' || c == '\n' || c == '\r'

/-- JavaScript `String.prototype.trim`. -/
def trim (s : Str) : Str :=
  ((s.dropWhile isWS).reverse.dropWhile isWS).reverse

/-- Does `pat` occur at the start of `hay`? -/
def strStarts : Str → Str → Bool
  | [], _ => true
  | _ :: _, [] => false
  | a :: as, b :: bs => a == b && strStarts as bs

/-- All suffixes of a list, longest first. -/
def tailsOf : Str → List Str
  | [] => [[]]
  | c :: cs => (c :: cs) :: tailsOf cs

/-- JavaScript `String.prototype.includes`: substring containment. -/
def includes (hay pat : Str) : Bool :=
  (tailsOf hay).any (fun t => strStarts pat t)

/-- JavaScript `String.prototype.toLowerCase` (ASCII, which is all the
source ever feeds it: git error text). -/
def lower (s : Str) : Str := s.map Char.toLower

/-- JavaScript `s.split('\n')[0]`: the prefix of `s` before the first
newline. -/
def firstLine (s : Str) : Str := s.takeWhile (fun c => c != '\n')

/-- JavaScript `s.split('\n')`. -/
def splitLines : Str → List Str
  | [] => [[]]
  | c :: cs =>
    if c = '\n' then [] :: splitLines cs
    else
      match splitLines cs with
      | [] => [[c]]
      | l :: ls => (c :: l) :: ls

/-!
## Repository discovery

The filesystem is modelled as a rose tree of named entries.  A directory
carries a `readable` flag: `readable = false` models a directory whose
`fs.readdir` raises (permission denied / race-deleted), which the source
catches and skips.  `fs.readdir ... withFileTypes` distinguishes files from
directories, which is all the walkers inspect.
-/

inductive FSEntry where
  | file (name : Str)
  | dir (name : Str) (readable : Bool) (children : List FSEntry)

/-- Denylist `node_modules, vendor, .vscode, .idea` of
`findAllGitRepositoriesSimple` (src/git-air.ts line 238). -/
def denySimple : List Str :=
  [strOf "node_modules", strOf "vendor", strOf ".vscode", strOf ".idea"]

/-- Denylist `node_modules, vendor, .vscode, .idea, dist, build` of the
advanced `findAllGitRepositories` walker
(src/git-air.ts line 274; src/unnamed/part_000 line 160). -/
def denyAdvanced : List Str :=
  denySimple ++ [strOf "dist", strOf "build"]

/-- The recursive worker `walkDirectory` of `findAllGitRepositoriesSimple`
(src/git-air.ts lines 229-255).  `p` is the path (as a list of segments,
relative to the scan root) of the directory whose `entries` are being
iterated.  For each entry: files are ignored (`entry.isDirectory()` gate);
denylisted directory names are skipped; a directory named `.git` causes the
*parent* path `p` to be emitted and is not recursed into; any other
directory is recursed into when readable (an unreadable directory is
skipped by the `catch`). -/
def walkSimple (p : List Str) : List FSEntry → List (List Str)
  | [] => []
  | .file _ :: rest => walkSimple p rest
  | .dir name readable ch :: rest =>
    (if name ∈ denySimple then []
     else if name = strOf ".git" then [p]
     else if readable then walkSimple (p ++ [name]) ch
     else []) ++ walkSimple p rest
termination_by l => sizeOf l

/-- The `findAllGitRepositoriesSimple` (src/git-air.ts lines 226-259), applied
to the children of a readable scan root; emitted paths are relative to the
root (the root itself is path `[]`). -/
def findAllGitRepositoriesSimple (root : List FSEntry) : List (List Str) :=
  walkSimple [] root

/-- Classification of a discovered repository (`RepoInfo.type`). -/
inductive RepoType where
  | main
  | submodule
  | nested
deriving DecidableEq

/-- The `checkIsMonorepo` (src/git-air.ts lines 307-335): a `.gitmodules`
entry exists, or some child directory other than `.git` itself contains a
`.git` entry (`fs.access` succeeds for files and directories alike). -/
def checkIsMonorepo (c : List FSEntry) : Bool :=
  c.any (fun e => match e with
    | .file n => n = strOf ".gitmodules"
    | .dir n _ _ => n = strOf ".gitmodules") ||
  c.any (fun e => match e with
    | .dir n _ ch =>
      !(n = strOf ".git") &&
      ch.any (fun e2 => match e2 with
        | .file n2 => n2 = strOf ".git"
        | .dir n2 _ _ => n2 = strOf ".git")
    | .file _ => false)

/-- The `determineRepoType` (src/git-air.ts lines 338-356): the scan root is
`main`; otherwise `submodule` iff `fs.stat` of the `.git` entry reports a
regular file; otherwise `nested`. -/
def determineRepoType (isRoot : Bool) (c : List FSEntry) : RepoType :=
  if isRoot then .main
  else
    match c.find? (fun e => match e with
      | .file n => n = strOf ".git"
      | .dir n _ _ => n = strOf ".git") with
    | some (.file _) => .submodule
    | _ => .nested

/-- The `RepoInfo` (src/git-air.ts lines 12-16). -/
structure RepoInfo where
  path : List Str
  isMonorepo : Bool
  type : RepoType

/-- The recursive worker of the advanced `findAllGitRepositories`
(src/git-air.ts lines 262-304; identical in src/unnamed/part_000 lines
148-190 up to a log line).  `all` is the full entry list of the directory
at path `p`, needed because emission inspects the entire contents of the
repository directory (`checkIsMonorepo`, `determineRepoType`); `rem` is the
remaining tail of `all` still to be iterated. -/
def walkAdvanced (p : List Str) (all : List FSEntry) : List FSEntry → List RepoInfo
  | [] => []
  | .file _ :: rest => walkAdvanced p all rest
  | .dir name readable ch :: rest =>
    (if name ∈ denyAdvanced then []
     else if name = strOf ".git" then
       [{ path := p
          isMonorepo := checkIsMonorepo all
          type := determineRepoType (decide (p = [])) all }]
     else if readable then walkAdvanced (p ++ [name]) ch ch
     else []) ++ walkAdvanced p all rest
termination_by l => sizeOf l

/-- The `findAllGitRepositories` (advanced walker), applied to the children of
a readable scan root. -/
def findAllGitRepositories (root : List FSEntry) : List RepoInfo :=
  walkAdvanced [] root root

/-- The claim-shaped specification of the simple walker, written from the
words of the spec: `RepoAt c s` holds when, starting from a directory with
children `c`, path `s` leads through a chain of readable directories whose
names are neither denylisted nor `.git`, to a directory one of whose
children is a *directory* named `.git`. -/
inductive RepoAt : List FSEntry → List Str → Prop where
  | here (c : List FSEntry) (r : Bool) (ch : List FSEntry)
      (hmem : FSEntry.dir (strOf ".git") r ch ∈ c) : RepoAt c []
  | step (c : List FSEntry) (name : Str) (ch : List FSEntry) (q : List Str)
      (hmem : FSEntry.dir name true ch ∈ c)
      (hdeny : name ∉ denySimple) (hgit : ¬name = strOf ".git")
      (hrec : RepoAt ch q) : RepoAt c (name :: q)

/-!
## External-command traces

Every external command the sync engine can issue is named by a `GitCmd`
constructor; each function returns, besides its result, the list of
commands it issued, in order.
-/

inductive GitCmd where
  /-- The `git status --porcelain` -/
  | statusPorcelain
  /-- The `git status -b --porcelain` -/
  | statusBranch
  /-- The `git remote -v` (read-only reporting) -/
  | remoteList
  /-- The `git add .` -/
  | addAll
  /-- The `git commit -m "<msg>"` -/
  | commit (msg : Str)
  /-- plain `git push` (both the first attempt and the post-auto-fix retry) -/
  | push
  /-- The `git branch --show-current` -/
  | branchShow
  /-- The `git push -u origin <branch>` -/
  | pushUpstream (branch : Str)
  /-- The `git pull --no-rebase` (merge strategy) -/
  | pullNoRebase
  /-- The `git pull --rebase` -/
  | pullRebase
  /-- plain `git pull` (AI-suggestion path) -/
  | pullPlain
  /-- The `git diff --cached --stat` -/
  | diffCachedStat
  /-- The `npx ts-node <ai-agent> --man "<summary>"` (primary oracle) -/
  | primaryAgent
  /-- The `which <tool>` (existence check for a fallback/advisory tool) -/
  | whichTool (name : Str)
  /-- The `echo "<prompt>" | <tool>` (fallback/advisory oracle invocation) -/
  | invokeTool (name : Str)

/-- Staging, committing and pushing commands — the mutating git commands
named by the skip-when-synchronized property. -/
def isStageCommitPush : GitCmd → Bool
  | .addAll => true
  | .commit _ => true
  | .push => true
  | .pushUpstream _ => true
  | _ => false

def isPush : GitCmd → Bool
  | .push => true
  | _ => false

def isPushUpstream : GitCmd → Bool
  | .pushUpstream _ => true
  | _ => false

def isPullNoRebase : GitCmd → Bool
  | .pullNoRebase => true
  | _ => false

def isPullRebase : GitCmd → Bool
  | .pullRebase => true
  | _ => false

/-- Commands issued by the AI advisory loop (`askAIForSolution`) only. -/
def isToolProbe : GitCmd → Bool
  | .whichTool _ => true
  | .invokeTool _ => true
  | _ => false

/-- Pull commands (the only git commands `attemptAutoFix` can issue). -/
def isPullCmd : GitCmd → Bool
  | .pullNoRebase => true
  | .pullRebase => true
  | .pullPlain => true
  | _ => false

/-!
## Commit-message oracle adapter

`generateCommitMessageWithAI` (src/git-air.ts lines 507-592) and
`tryFallbackAIs` (lines 595-638).  The result of each external invocation is an
environment field; a `.error e` models the `execAsync` promise rejecting
with an error whose `.message` is `e`.
-/

structure OracleEnv where
  /-- The `git status --porcelain` at line 513 (run after `git add .`). -/
  statusPorcelain : Except Str Str
  /-- The `git diff --cached --stat` (line 538, and again at line 604). -/
  diffCachedStat : Except Str Str
  /-- The `path.basename(repoPath)` -/
  repoName : Str
  /-- result of `findProjectRoot` (filesystem walk, lines 104-119). -/
  projectRoot : Option Str
  /-- the primary AI agent invocation (line 564), as a function of the
  changes summary passed with `--man`. -/
  primary : Str → Except Str Str
  /-- The `which <tool>`: `true` iff the tool exists (line 614). -/
  whichTool : Str → Bool
  /-- The `echo "<summary>" | <tool command>` (line 617), as a function of the
  tool name and the summary. -/
  fallbackOut : Str → Str → Except Str Str

/-- Result of the oracle adapter: the produced message (or `none`) plus the
trace of external commands issued. -/
structure GenRun where
  message : Option Str
  trace : List GitCmd

/-- The prioritized fallback list (src/git-air.ts lines 596-600). -/
def fallbackAIs : List (Str × Str) :=
  [(strOf "gemini-cli", strOf "gemini commit"),
   (strOf "claude", strOf "claude commit"),
   (strOf "codex", strOf "codex commit")]

/-- The `for (const ai of fallbackAIs)` loop body (lines 609-632): check
existence with `which`, invoke, and return the *first line* of the first
non-empty trimmed output; any failure or empty output falls through to the
next tool. -/
def tryFallbackLoop (env : OracleEnv) (summary : Str) :
    List (Str × Str) → GenRun
  | [] => ⟨none, []⟩
  | (name, _cmd) :: rest =>
    if env.whichTool name then
      match env.fallbackOut name summary with
      | .ok msg =>
        if (trim msg).isEmpty then
          let r := tryFallbackLoop env summary rest
          ⟨r.message, .whichTool name :: .invokeTool name :: r.trace⟩
        else
          ⟨some (firstLine (trim msg)), [.whichTool name, .invokeTool name]⟩
      | .error _ =>
        let r := tryFallbackLoop env summary rest
        ⟨r.message, .whichTool name :: .invokeTool name :: r.trace⟩
    else
      let r := tryFallbackLoop env summary rest
      ⟨r.message, .whichTool name :: r.trace⟩

/-- The `tryFallbackAIs` (lines 595-638): re-read the cached diff stat, give up
(`null`) when it is empty or unreadable, otherwise run the fallback loop on
the first 200 characters. -/
def tryFallbackAIs (env : OracleEnv) : GenRun :=
  match env.diffCachedStat with
  | .error _ => ⟨none, [.diffCachedStat]⟩
  | .ok diffOutput =>
    if (trim diffOutput).isEmpty then ⟨none, [.diffCachedStat]⟩
    else
      let changesSummary := diffOutput.take 200
      let r := tryFallbackLoop env changesSummary fallbackAIs
      ⟨r.message, .diffCachedStat :: r.trace⟩

/-- The summary string passed to the primary agent (line 562):
`"<fileCount> files changed in <repoName>. Stats: <first 500 chars>"`. -/
def primaryPrompt (env : OracleEnv) (stagedFiles diffOutput : Str) : Str :=
  let changedFiles := (splitLines stagedFiles).filter (fun l => !(trim l).isEmpty)
  (Nat.repr changedFiles.length).data ++ strOf " files changed in " ++
    env.repoName ++ strOf ". Stats: " ++ diffOutput.take 500

/-- The `generateCommitMessageWithAI` (lines 507-592).  Exceptions from the
status/diff commands land in the outer `catch` (line 584) which falls back
to `tryFallbackAIs`; a failing primary agent lands in the inner `catch`
(line 579) with the same fallback; a *successful* primary agent whose
trimmed output is non-empty is returned whole (only trimmed, line 573). -/
def generateCommitMessageWithAI (env : OracleEnv) : GenRun :=
  match env.statusPorcelain with
  | .error _ =>
    let r := tryFallbackAIs env
    ⟨r.message, .statusPorcelain :: r.trace⟩
  | .ok stagedFiles =>
    if (trim stagedFiles).isEmpty then ⟨none, [.statusPorcelain]⟩
    else
      match env.diffCachedStat with
      | .error _ =>
        let r := tryFallbackAIs env
        ⟨r.message, [.statusPorcelain, .diffCachedStat] ++ r.trace⟩
      | .ok diffOutput =>
        if diffOutput.isEmpty then ⟨none, [.statusPorcelain, .diffCachedStat]⟩
        else
          match env.projectRoot with
          | none => ⟨none, [.statusPorcelain, .diffCachedStat]⟩
          | some _ =>
            match env.primary (primaryPrompt env stagedFiles diffOutput) with
            | .ok commitMessage =>
              if !(trim commitMessage).isEmpty then
                ⟨some (trim commitMessage),
                 [.statusPorcelain, .diffCachedStat, .primaryAgent]⟩
              else
                ⟨none, [.statusPorcelain, .diffCachedStat, .primaryAgent]⟩
            | .error _ =>
              let r := tryFallbackAIs env
              ⟨r.message,
               [.statusPorcelain, .diffCachedStat, .primaryAgent] ++ r.trace⟩

/-!
## AI advisory oracle (`askAIForSolution`, lines 658-700)
-/

structure AskEnv where
  whichTool : Str → Bool
  /-- The `echo "<problem>" | <tool>`, as a function of tool name and problem
  description. -/
  respond : Str → Str → Except Str Str

structure AskRun where
  solution : Option Str
  trace : List GitCmd

/-- The problem-solving tool list (lines 663-667). -/
def aiClis : List Str := [strOf "gemini", strOf "claude", strOf "codex"]

/-- The `for (const aiCli of aiClis)` loop (lines 669-692): first line of
the first non-empty trimmed response wins; failures and empty responses
fall through. -/
def askLoop (env : AskEnv) (problem : Str) : List Str → AskRun
  | [] => ⟨none, []⟩
  | name :: rest =>
    if env.whichTool name then
      match env.respond name problem with
      | .ok resp =>
        if (trim resp).isEmpty then
          let r := askLoop env problem rest
          ⟨r.solution, .whichTool name :: .invokeTool name :: r.trace⟩
        else
          ⟨some (firstLine (trim resp)), [.whichTool name, .invokeTool name]⟩
      | .error _ =>
        let r := askLoop env problem rest
        ⟨r.solution, .whichTool name :: .invokeTool name :: r.trace⟩
    else
      let r := askLoop env problem rest
      ⟨r.solution, .whichTool name :: r.trace⟩

/-- The `askAIForSolution` (lines 658-700). -/
def askAIForSolution (env : AskEnv) (errorMessage : Str) : AskRun :=
  let problem := strOf "Git push failed with error: \"" ++ errorMessage ++
    strOf "\". What is the solution? Answer in one sentence."
  askLoop env problem aiClis

/-!
## Sync engine (`gitCommitAndPush`, src/git-air.ts lines 793-884)

The per-program-point environment: each git invocation inside one run of
`gitCommitAndPush` has its own field (`push1` is the first plain `git
push` at line 840, `push2` the retry at line 861 after a successful
auto-fix, which may well behave differently).
-/

structure SyncEnv where
  /-- The `git status --porcelain` (line 796). -/
  statusPorcelain : Except Str Str
  /-- The `git status -b --porcelain` (line 802). -/
  statusBranch : Except Str Str
  /-- The `git add .` (line 816). -/
  addAll : Except Str Str
  /-- environment of the message oracle invoked at line 820. -/
  oracle : OracleEnv
  /-- The `new Date().toISOString()` for the fallback message (line 821). -/
  timestamp : Str
  /-- The `git commit -m "<msg>"` (line 825); an `.error e` models the promise
  rejecting with `error.message = e`. -/
  commit : Except Str Str
  /-- plain `git push` (line 840). -/
  push1 : Except Str Str
  /-- The `git branch --show-current` (line 846). -/
  branchShow : Except Str Str
  /-- The `git push -u origin <branch>` (line 847). -/
  pushUpstream : Except Str Str
  /-- The `git pull --no-rebase` (line 713). -/
  pullNoRebase : Except Str Str
  /-- The `git pull --rebase` (line 718). -/
  pullRebase : Except Str Str
  /-- plain `git pull` (line 745, AI-suggestion path). -/
  pullPlain : Except Str Str
  /-- the retry `git push` after a successful auto-fix (line 861). -/
  push2 : Except Str Str
  /-- environment of `askAIForSolution` (line 870). -/
  ask : AskEnv

/-- Result of `gitCommitAndPush`: `true`, the no-changes marker, or `false` in the
source. -/
inductive Outcome where
  | success
  | noChanges
  | failure
deriving DecidableEq

/-- One run of (a phase of) the engine: outcome, issued commands, and the
`console.log` lines that matter to the log-capturing interceptor of
`gitCommitAndPushWithDetails` (lines 763-781).  Log lines containing none
of the six interceptor patterns are omitted from `logs`: they leave its
captured `lastError` unchanged. -/
structure SyncRun where
  outcome : Outcome
  trace : List GitCmd
  logs : List Str

/-- Result of `attemptAutoFix`: its boolean plus trace and logs. -/
structure FixRun where
  ok : Bool
  trace : List GitCmd
  logs : List Str

/-- The `attemptAutoFix` (src/git-air.ts lines 703-755).  The interceptor-
relevant log is the SSH note at line 733.  The final `catch` (line 751)
turns a throwing `git pull` into `false`. -/
def attemptAutoFix (env : SyncEnv) (errorMessage aiSuggestion : Str) : FixRun :=
  let error := lower errorMessage
  let suggestion := lower aiSuggestion
  if includes error (strOf "fetch first") ||
      includes error (strOf "non-fast-forward") then
    match env.pullNoRebase with
    | .ok _ => ⟨true, [.pullNoRebase], []⟩
    | .error _ =>
      match env.pullRebase with
      | .ok _ => ⟨true, [.pullNoRebase, .pullRebase], []⟩
      | .error _ => ⟨false, [.pullNoRebase, .pullRebase], []⟩
  else if includes error (strOf "repository not found") &&
      includes suggestion (strOf "create") then
    ⟨false, [], []⟩
  else if includes error (strOf "host key verification failed") then
    ⟨false, [],
     [strOf "  - 📝 Note: SSH key verification failed (manual intervention required)"]⟩
  else if includes error (strOf "permission denied") ||
      includes error (strOf "access rights") then
    ⟨false, [], []⟩
  else if includes suggestion (strOf "git pull") &&
      !includes error (strOf "repository not found") then
    match env.pullPlain with
    | .ok _ => ⟨true, [.pullPlain], []⟩
    | .error _ => ⟨false, [.pullPlain], []⟩
  else
    ⟨false, [], []⟩

/-- Log line 851, which carries the raw upstream-push error text. -/
def pushFailedLog (errMsg : Str) : Str :=
  strOf "  - ❌ PUSH FAILED: " ++ errMsg

/-- Log line 852. -/
def unpushedWarnLog : Str := strOf "  - ⚠️  Repository has unpushed commits!"

/-- Log line 835. -/
def foundUnpushedLog : Str := strOf "  - Found unpushed commits, pushing..."

/-- The recovery block of `gitCommitAndPush` (lines 851-877): log the push
failure, run `attemptAutoFix` with an empty AI suggestion, on success retry
`git push` once; a failed retry or no fix consults `askAIForSolution`
(logging only) and yields `false`. -/
def recoverPhase (env : SyncEnv) (errMsg : Str) : SyncRun :=
  let lg0 := [pushFailedLog errMsg, unpushedWarnLog]
  let fix := attemptAutoFix env errMsg (strOf "")
  if fix.ok then
    match env.push2 with
    | .ok _ => ⟨.success, fix.trace ++ [.push], lg0 ++ fix.logs⟩
    | .error _ =>
      let a := askAIForSolution env.ask errMsg
      ⟨.failure, fix.trace ++ [.push] ++ a.trace, lg0 ++ fix.logs⟩
  else
    let a := askAIForSolution env.ask errMsg
    ⟨.failure, fix.trace ++ a.trace, lg0 ++ fix.logs⟩

/-- The push section of `gitCommitAndPush` (lines 839-879): plain push; on
failure retry once with `git push -u origin <current branch>`; if that also
fails (or the branch lookup itself fails), enter recovery with the error
text of the failed attempt. -/
def pushPhase (env : SyncEnv) : SyncRun :=
  match env.push1 with
  | .ok _ => ⟨.success, [.push], []⟩
  | .error _ =>
    match env.branchShow with
    | .ok branchOut =>
      let branch := trim branchOut
      match env.pushUpstream with
      | .ok _ => ⟨.success, [.push, .branchShow, .pushUpstream branch], []⟩
      | .error upErr =>
        let r := recoverPhase env upErr
        ⟨r.outcome, [.push, .branchShow, .pushUpstream branch] ++ r.trace, r.logs⟩
    | .error showErr =>
      let r := recoverPhase env showErr
      ⟨r.outcome, [.push, .branchShow] ++ r.trace, r.logs⟩

/-- The `hasUnpushedCommits` (lines 800-806): `true` iff `git status -b
--porcelain` succeeded and its output contains the substring `"ahead"`; a
failing command is caught and leaves the flag `false`. -/
def hasUnpushedCommits (env : SyncEnv) : Bool :=
  match env.statusBranch with
  | .ok statusBranch => includes statusBranch (strOf "ahead")
  | .error _ => false

/-- The fallback commit message (line 821). -/
def autoCommitMessage (ts : Str) : Str :=
  strOf "Auto-commit by git-air at " ++ ts

/-- The `const commitMessage = aiCommitMessage || ...` (line 821).  The oracle
adapter never produces an empty string (it returns trimmed non-empty text
or `null`), so JavaScript falsiness coincides with the `Option`. -/
def chosenCommitMessage (env : SyncEnv) : Str :=
  match (generateCommitMessageWithAI env.oracle).message with
  | some m => m
  | none => autoCommitMessage env.timestamp

/-- The body of the outer `try` of `gitCommitAndPush` (lines 794-879).
`.error (e, tr, lg)` models an exception with message `e` escaping to the
outer `catch` (line 880) after commands `tr` were issued; the only such
points are the two status/stage commands outside any inner `try` and the
re-`throw` of a commit error whose message lacks `"nothing to commit"`
(line 832). -/
def syncBody (env : SyncEnv) : Except (Str × List GitCmd × List Str) SyncRun :=
  match env.statusPorcelain with
  | .error e => .error (e, [.statusPorcelain], [])
  | .ok statusOutput =>
    let hasUncommittedChanges := !(trim statusOutput).isEmpty
    let tr0 : List GitCmd := [.statusPorcelain, .statusBranch]
    if !hasUncommittedChanges && !hasUnpushedCommits env then
      .ok ⟨.noChanges, tr0, []⟩
    else if hasUncommittedChanges then
      match env.addAll with
      | .error e => .error (e, tr0 ++ [.addAll], [])
      | .ok _ =>
        let gen := generateCommitMessageWithAI env.oracle
        let commitMessage := chosenCommitMessage env
        let trC := tr0 ++ [.addAll] ++ gen.trace ++ [.commit commitMessage]
        match env.commit with
        | .error e =>
          if includes e (strOf "nothing to commit") then
            .ok ⟨.failure, trC, []⟩
          else
            .error (e, trC, [])
        | .ok _ =>
          let r := pushPhase env
          .ok ⟨r.outcome, trC ++ r.trace, r.logs⟩
    else
      let lg0 := if hasUnpushedCommits env then [foundUnpushedLog] else []
      let r := pushPhase env
      .ok ⟨r.outcome, tr0 ++ r.trace, lg0 ++ r.logs⟩

/-- Log line 881 of the outer `catch`. -/
def errorInCommitPushLog (e : Str) : Str :=
  strOf "  - Error in commit/push: " ++ e

/-- The `gitCommitAndPush` (lines 793-884): the outer `catch` converts any
escaped exception into the `false` (failure) outcome. -/
def gitCommitAndPush (env : SyncEnv) : SyncRun :=
  match syncBody env with
  | .ok r => r
  | .error (e, tr, lg) => ⟨.failure, tr, lg ++ [errorInCommitPushLog e]⟩

/-!
## Detailed wrapper and run orchestrator
(`gitCommitAndPushWithDetails`, lines 758-790; `runGitTasks`, lines
122-223)
-/

/-- One step of the `console.log` interceptor installed by
`gitCommitAndPushWithDetails` (lines 763-781): each printed line is
matched against six substrings, the last match wins. -/
def captureError (acc msg : Str) : Str :=
  if includes msg (strOf "PUSH FAILED") then
    strOf "Push failed to remote repository"
  else if includes msg (strOf "repository not found") then
    strOf "Remote repository not found"
  else if includes msg (strOf "SSH key verification failed") then
    strOf "SSH key verification failed"
  else if includes msg (strOf "Host key verification failed") then
    strOf "SSH host key verification failed"
  else if includes msg (strOf "unpushed commits") then
    strOf "Repository has unpushed commits"
  else if includes msg (strOf "Error in commit/push") then
    strOf "Failed to commit changes"
  else acc

/-- Final `lastError` of the interceptor over the logged lines. -/
def lastErrorOf (logs : List Str) : Str :=
  logs.foldl captureError []

/-- Result record of `gitCommitAndPushWithDetails` (line 786-789). -/
structure DetailResult where
  status : Outcome
  error : Option Str

/-- The `gitCommitAndPushWithDetails` (lines 758-790): run the engine with the
interceptor installed; on failure report the captured `lastError`, or the
text Unknown error when nothing was captured. -/
def gitCommitAndPushWithDetails (env : SyncEnv) : DetailResult × List GitCmd :=
  let r := gitCommitAndPush env
  let lastError := lastErrorOf r.logs
  (⟨r.outcome,
    if r.outcome = .failure then
      some (if lastError.isEmpty then strOf "Unknown error" else lastError)
    else none⟩,
   r.trace)

/-- Per-repository environment of one `runGitTasks` loop iteration
(lines 144-190): the verbose status check (both status commands of lines
151-152, which share one `try`) and the sync-engine environment. -/
structure RepoEnv where
  name : Str
  relPath : Str
  /-- the `git status --porcelain` / `git status -b --porcelain` pair of
  the verbose check; `.error` models either command throwing (caught at
  line 170, after which processing falls through to the engine). -/
  preStatus : Except Str (Str × Str)
  sync : SyncEnv

/-- Outcome of one loop iteration. -/
structure RepoStep where
  outcome : Outcome
  trace : List GitCmd
  issue : Option Str

/-- The body of the `for (const repoPath of repositories)` loop (lines
144-189): when the verbose status reports a clean, non-ahead repository the
iteration ends as `NoChanges` without invoking the engine (line 165-169);
otherwise the engine runs. -/
def processRepo (r : RepoEnv) : RepoStep :=
  match r.preStatus with
  | .ok (gitStatus, branchStatus) =>
    let hasUncommitted := !(trim gitStatus).isEmpty
    let hasUnpushed := includes branchStatus (strOf "ahead")
    if !hasUncommitted && !hasUnpushed then
      ⟨.noChanges, [.statusPorcelain, .statusBranch, .remoteList], none⟩
    else
      let (d, tr) := gitCommitAndPushWithDetails r.sync
      ⟨d.status, [.statusPorcelain, .statusBranch, .remoteList] ++ tr, d.error⟩
  | .error _ =>
    let (d, tr) := gitCommitAndPushWithDetails r.sync
    ⟨d.status, tr, d.error⟩

/-- A failed-repository record (line 184-188). -/
structure FailedRepo where
  name : Str
  path : Str
  issue : Str

/-- The aggregated counters and failure list of `runGitTasks`
(lines 139-142). -/
structure RunSummary where
  successCount : Nat
  noChangesCount : Nat
  failureCount : Nat
  failedRepos : List FailedRepo

def emptySummary : RunSummary := ⟨0, 0, 0, []⟩

/-- Effect of one iteration on the counters (lines 165-189): exactly one
counter is incremented, and `failedRepos` grows exactly on failure. -/
def stepRepo (acc : RunSummary) (r : RepoEnv) : RunSummary :=
  let s := processRepo r
  match s.outcome with
  | .success => { acc with successCount := acc.successCount + 1 }
  | .noChanges => { acc with noChangesCount := acc.noChangesCount + 1 }
  | .failure =>
    { acc with
      failureCount := acc.failureCount + 1
      failedRepos := acc.failedRepos ++
        [⟨r.name, r.relPath,
          match s.issue with
          | some i => i
          | none => strOf "Unknown error"⟩] }

/-- The processing loop of `runGitTasks` over the discovered repositories
(lines 139-190). -/
def runGitTasks (repos : List RepoEnv) : RunSummary :=
  repos.foldl stepRepo emptySummary

/-- Componentwise combination of two summaries (used to state failure
isolation: the loop over `xs ++ ys` is the loop over `xs` followed,
unconditionally, by the loop over `ys`). -/
def mergeSummary (a b : RunSummary) : RunSummary :=
  ⟨a.successCount + b.successCount,
   a.noChangesCount + b.noChangesCount,
   a.failureCount + b.failureCount,
   a.failedRepos ++ b.failedRepos⟩

/-!
## Concrete environments and directory trees for closed-form checks
-/

/-- An oracle environment in which every external invocation fails. -/
def quietOracle : OracleEnv :=
  { statusPorcelain := .error []
    diffCachedStat := .error []
    repoName := strOf "demo"
    projectRoot := none
    primary := fun _ => .error []
    whichTool := fun _ => false
    fallbackOut := fun _ _ => .error [] }

/-- An advisory environment with no AI tools installed. -/
def quietAsk : AskEnv :=
  { whichTool := fun _ => false
    respond := fun _ _ => .error [] }

/-- A baseline sync environment: clean working tree, branch level with
upstream, every git command succeeding. -/
def baseSync : SyncEnv :=
  { statusPorcelain := .ok []
    statusBranch := .ok (strOf "## main")
    addAll := .ok []
    oracle := quietOracle
    timestamp := strOf "2024-01-01T00:00:00.000Z"
    commit := .ok []
    push1 := .ok []
    branchShow := .ok (strOf "main\n")
    pushUpstream := .ok []
    pullNoRebase := .ok []
    pullRebase := .ok []
    pullPlain := .ok []
    push2 := .ok []
    ask := quietAsk }

/-- Untracked file present, but `git commit` rejects with a
"nothing to commit" message. -/
def nothingToCommitEnv : SyncEnv :=
  { baseSync with
    statusPorcelain := .ok (strOf "?? a.txt")
    commit := .error (strOf "nothing to commit, working tree clean") }

/-- Branch ahead of upstream; plain push and upstream-setting push both
rejected with a divergence error. -/
def divergedEnv : SyncEnv :=
  { baseSync with
    statusBranch := .ok (strOf "## main...origin/main [ahead 1]")
    push1 := .error (strOf "failed to push some refs")
    pushUpstream := .error (strOf "rejected: fetch first") }

/-- Branch-aware status command itself fails (e.g. no upstream resolvable
in a detached state). -/
def noUpstreamEnv : SyncEnv :=
  { baseSync with statusBranch := .error (strOf "fatal: no upstream") }

/-- Primary oracle succeeds and emits two lines. -/
def multilineOracle : OracleEnv :=
  { quietOracle with
    statusPorcelain := .ok (strOf "M  a.txt")
    diffCachedStat := .ok (strOf " a.txt | 2 +-")
    projectRoot := some (strOf "/root/proj")
    primary := fun _ => .ok (strOf "feat: change a\nThis explains why.") }

/-- Primary oracle unavailable, one fallback tool installed and emitting
two lines. -/
def fallbackOracle : OracleEnv :=
  { quietOracle with
    diffCachedStat := .ok (strOf " a.txt | 2 +-")
    whichTool := fun n => n = strOf "claude"
    fallbackOut := fun _ _ => .ok (strOf "fix: adjust a\nextra detail") }

/-- A repository whose verbose status check reports clean and level. -/
def repoOkEnv : RepoEnv :=
  { name := strOf "alpha"
    relPath := strOf "alpha"
    preStatus := .ok ([], strOf "## main")
    sync := baseSync }

/-- A repository whose status check throws and whose engine run also
throws at the first status command. -/
def repoBadEnv : RepoEnv :=
  { name := strOf "beta"
    relPath := strOf "beta"
    preStatus := .error (strOf "not a git repository")
    sync := { baseSync with statusPorcelain := .error (strOf "not a git repository") } }

/-- A directory whose `.git` child is a regular file (a submodule or
linked-worktree pointer). -/
def treeGitFile : List FSEntry :=
  [.dir (strOf "sub") true [.file (strOf ".git")]]

/-- Two repositories, one nested below the other. -/
def treeNested : List FSEntry :=
  [.dir (strOf "a") true
    [.dir (strOf ".git") true [],
     .dir (strOf "b") true [.dir (strOf ".git") true []]]]

/-- A `.git` directory inside a `build` directory. -/
def treeBuild : List FSEntry :=
  [.dir (strOf "build") true [.dir (strOf ".git") true []]]

/-!
## Helper lemmas
-/

theorem newline_not_mem_firstLine (s : Str) : '\n' ∉ firstLine s := by
  intro h
  have := List.mem_takeWhile_imp h
  simp at this


theorem askLoop_trace_probe (env : AskEnv) (problem : Str) :
    ∀ (l : List Str), ((askLoop env problem l).trace.all isToolProbe) = true := by
  intro l
  induction l with
  | nil => rfl
  | cons name rest ih =>
    simp only [askLoop]
    cases hw : env.whichTool name
    · simp [hw, List.all_cons, isToolProbe, ih]
    · simp only [hw, if_true]
      cases hr : env.respond name problem with
      | ok resp =>
        by_cases he : (trim resp).isEmpty = true <;>
          simp [he, List.all_cons, isToolProbe, ih]
      | error e => simp [List.all_cons, isToolProbe, ih]

theorem askAI_trace_probe (env : AskEnv) (errMsg : Str) :
    ((askAIForSolution env errMsg).trace.all isToolProbe) = true := by
  unfold askAIForSolution
  exact askLoop_trace_probe env _ aiClis

theorem attemptAutoFix_trace_pull (env : SyncEnv) (em sg : Str) :
    ((attemptAutoFix env em sg).trace.all isPullCmd) = true := by
  simp only [attemptAutoFix]
  split_ifs
  · cases env.pullNoRebase with
    | ok _ => rfl
    | error _ =>
      cases env.pullRebase with
      | ok _ => rfl
      | error _ => rfl
  · rfl
  · rfl
  · rfl
  · cases env.pullPlain with
    | ok _ => rfl
    | error _ => rfl
  · rfl

theorem tryFallbackLoop_trace_probe (env : OracleEnv) (summary : Str) :
    ∀ (l : List (Str × Str)),
      ((tryFallbackLoop env summary l).trace.all isToolProbe) = true := by
  intro l
  induction l with
  | nil => rfl
  | cons nc rest ih =>
    obtain ⟨name, cmd⟩ := nc
    simp only [tryFallbackLoop]
    cases hw : env.whichTool name
    · simp [hw, List.all_cons, isToolProbe, ih]
    · simp only [hw, if_true]
      cases hr : env.fallbackOut name summary with
      | ok msg =>
        by_cases he : (trim msg).isEmpty = true <;>
          simp [he, List.all_cons, isToolProbe, ih]
      | error e => simp [List.all_cons, isToolProbe, ih]

theorem tryFallbackLoop_message_firstLine (env : OracleEnv) (summary : Str) :
    ∀ (l : List (Str × Str)) (m : Str),
      (tryFallbackLoop env summary l).message = some m → '\n' ∉ m := by
  intro l
  induction l with
  | nil => intro m h; simp [tryFallbackLoop] at h
  | cons nc rest ih =>
    obtain ⟨name, cmd⟩ := nc
    intro m h
    simp only [tryFallbackLoop] at h
    cases hw : env.whichTool name
    · simp only [hw, Bool.false_eq_true, if_false] at h
      exact ih m h
    · simp only [hw, if_true] at h
      cases hr : env.fallbackOut name summary with
      | ok msg =>
        simp only [hr] at h
        by_cases he : (trim msg).isEmpty = true
        · simp only [he, if_true] at h
          exact ih m h
        · simp only [he, if_false] at h
          have hm : firstLine (trim msg) = m := by
            simpa using h
          exact hm ▸ newline_not_mem_firstLine (trim msg)
      | error e =>
        simp only [hr] at h
        exact ih m h

theorem tryFallbackAIs_message_firstLine (env : OracleEnv) (m : Str) :
    (tryFallbackAIs env).message = some m → '\n' ∉ m := by
  intro h
  unfold tryFallbackAIs at h
  cases hd : env.diffCachedStat with
  | error e => simp only [hd] at h; simp at h
  | ok diffOutput =>
    simp only [hd] at h
    by_cases he : (trim diffOutput).isEmpty = true
    · simp only [he, if_true] at h; simp at h
    · simp only [he, if_false] at h
      exact tryFallbackLoop_message_firstLine env (diffOutput.take 200) fallbackAIs m h


theorem toolProbe_not_stage (c : GitCmd) :
    isToolProbe c = true → isStageCommitPush c = false := by
  cases c <;> simp [isToolProbe, isStageCommitPush]

theorem tryFallbackAIs_trace_nonmut (env : OracleEnv) :
    ((tryFallbackAIs env).trace.all fun c => !isStageCommitPush c) = true := by
  unfold tryFallbackAIs
  cases hd : env.diffCachedStat with
  | error e => rfl
  | ok diffOutput =>
    by_cases he : (trim diffOutput).isEmpty = true
    · simp [he, isStageCommitPush]
    · simp only [he, if_false]
      show ((GitCmd.diffCachedStat ::
          (tryFallbackLoop env (diffOutput.take 200) fallbackAIs).trace).all
          fun c => !isStageCommitPush c) = true
      simp only [List.all_cons, Bool.and_eq_true]
      constructor
      · rfl
      · rw [List.all_eq_true]
        intro c h
        have hall := tryFallbackLoop_trace_probe env (diffOutput.take 200) fallbackAIs
        rw [List.all_eq_true] at hall
        have hp := hall c h
        show (!isStageCommitPush c) = true
        simp [toolProbe_not_stage c hp]

theorem tryFallbackAIs_trace_nonmut_mem (env : OracleEnv) :
    ∀ c ∈ (tryFallbackAIs env).trace, isStageCommitPush c = false := by
  have h := tryFallbackAIs_trace_nonmut env
  rw [List.all_eq_true] at h
  intro c hc
  have hx := h c hc
  simpa using hx

theorem generate_trace_nonmut (env : OracleEnv) :
    ∀ c ∈ (generateCommitMessageWithAI env).trace, isStageCommitPush c = false := by
  intro c hc
  unfold generateCommitMessageWithAI at hc
  cases hs : env.statusPorcelain with
  | error e =>
    rw [hs] at hc
    dsimp only at hc
    rw [List.mem_cons] at hc
    rcases hc with h | h
    · subst h; rfl
    · exact tryFallbackAIs_trace_nonmut_mem env c h
  | ok stagedFiles =>
    rw [hs] at hc
    dsimp only at hc
    by_cases h1 : (trim stagedFiles).isEmpty = true
    · rw [if_pos h1] at hc
      dsimp only at hc
      rw [List.mem_singleton] at hc
      subst hc; rfl
    · rw [if_neg h1] at hc
      cases hd : env.diffCachedStat with
      | error e =>
        rw [hd] at hc
        dsimp only at hc
        simp only [List.cons_append, List.nil_append, List.mem_cons] at hc
        rcases hc with h | h | h
        · subst h; rfl
        · subst h; rfl
        · exact tryFallbackAIs_trace_nonmut_mem env c h
      | ok diffOutput =>
        rw [hd] at hc
        dsimp only at hc
        by_cases h2 : diffOutput.isEmpty = true
        · rw [if_pos h2] at hc
          dsimp only at hc
          simp only [List.mem_cons, List.not_mem_nil, or_false] at hc
          rcases hc with h | h <;> (subst h; rfl)
        · rw [if_neg h2] at hc
          cases hp : env.projectRoot with
          | none =>
            rw [hp] at hc
            dsimp only at hc
            simp only [List.mem_cons, List.not_mem_nil, or_false] at hc
            rcases hc with h | h <;> (subst h; rfl)
          | some root =>
            rw [hp] at hc
            dsimp only at hc
            cases hpr : env.primary (primaryPrompt env stagedFiles diffOutput) with
            | ok commitMessage =>
              rw [hpr] at hc
              dsimp only at hc
              by_cases h3 : (trim commitMessage).isEmpty = true
              · simp [h3] at hc
                rcases hc with h | h | h <;> (subst h; rfl)
              · simp [h3] at hc
                rcases hc with h | h | h <;> (subst h; rfl)
            | error e =>
              rw [hpr] at hc
              dsimp only at hc
              simp only [List.cons_append, List.nil_append, List.mem_cons] at hc
              rcases hc with h | h | h | h
              · subst h; rfl
              · subst h; rfl
              · subst h; rfl
              · exact tryFallbackAIs_trace_nonmut_mem env c h

/-!
## Claim theorems
-/

/-- C1 (confirmed): for every repository whose working-tree porcelain
status is empty and whose branch-aware status does not indicate the branch
is ahead of upstream, the sync engine `gitCommitAndPush` returns the
`NoChanges` outcome and issues no staging, commit, or push command at all:
its whole command trace is the two read-only status inspections. -/
theorem c1_skip_when_synchronized (env : SyncEnv) (s : Str)
    (hok : env.statusPorcelain = .ok s) (hclean : trim s = [])
    (hahead : hasUnpushedCommits env = false) :
    (gitCommitAndPush env).outcome = Outcome.noChanges ∧
    (gitCommitAndPush env).trace = [GitCmd.statusPorcelain, GitCmd.statusBranch] ∧
    ((gitCommitAndPush env).trace.all fun c => !isStageCommitPush c) = true := by
  have hrun : gitCommitAndPush env =
      ⟨.noChanges, [GitCmd.statusPorcelain, GitCmd.statusBranch], []⟩ := by
    unfold gitCommitAndPush syncBody
    rw [hok]
    simp [hclean, hahead]
  rw [hrun]
  exact ⟨rfl, rfl, rfl⟩

/-- Witness for C1 at a concrete environment (clean tree, level branch). -/
theorem c1_skip_when_synchronized_witness :
    baseSync.statusPorcelain = .ok [] ∧ trim [] = [] ∧
    hasUnpushedCommits baseSync = false ∧
    (gitCommitAndPush baseSync).outcome = Outcome.noChanges ∧
    (gitCommitAndPush baseSync).trace = [GitCmd.statusPorcelain, GitCmd.statusBranch] := by
  have h := c1_skip_when_synchronized baseSync [] rfl rfl (by decide)
  exact ⟨rfl, rfl, by decide, h.1, h.2.1⟩

/-- C7 (confirmed): the computed `hasUnpushedCommits` flag is true iff
the branch-aware status report was produced and contains the `"ahead"`
marker; when the branch-aware status command fails (e.g. no upstream
resolvable), the flag is false, no error escapes, and the engine behaves
exactly as if the command had succeeded with an empty report. -/
theorem c7_unpushed_commits_flag (env : SyncEnv) :
    (∀ sb, env.statusBranch = .ok sb →
      hasUnpushedCommits env = includes sb (strOf "ahead")) ∧
    (∀ e, env.statusBranch = .error e →
      hasUnpushedCommits env = false ∧
      gitCommitAndPush env = gitCommitAndPush { env with statusBranch := .ok [] }) := by
  constructor
  · intro sb h
    simp [hasUnpushedCommits, h]
  · intro e h
    refine ⟨by simp [hasUnpushedCommits, h], ?_⟩
    obtain ⟨sp, sb, aa, orc, ts, cm, p1, bs, pu, pnr, pr, pp, p2, ask⟩ := env
    simp only at h
    subst h
    rfl

/-- Witness for C7 at a concrete environment whose branch-aware status
command fails. -/
theorem c7_unpushed_commits_flag_witness :
    noUpstreamEnv.statusBranch = .error (strOf "fatal: no upstream") ∧
    hasUnpushedCommits noUpstreamEnv = false ∧
    (gitCommitAndPush noUpstreamEnv).outcome = Outcome.noChanges := by
  have h := (c7_unpushed_commits_flag noUpstreamEnv).2
    (strOf "fatal: no upstream") rfl
  exact ⟨rfl, h.1, by decide⟩

theorem stage_false_push_false (c : GitCmd) :
    isStageCommitPush c = false → isPush c = false := by
  cases c <;> simp [isStageCommitPush, isPush]

/-- C5 counterexample: with an untracked file reported by the status
check but `git commit` rejecting with a "nothing to commit" message, the
sync engine returns the `false` outcome, which the orchestrator counts and
reports as a Failure — contradicting the claim that the outcome of the
repository is not tagged `Failure` for that reason. -/
theorem c5_nothing_to_commit_counterexample :
    nothingToCommitEnv.commit =
      .error (strOf "nothing to commit, working tree clean") ∧
    includes (strOf "nothing to commit, working tree clean")
      (strOf "nothing to commit") = true ∧
    (gitCommitAndPush nothingToCommitEnv).outcome = Outcome.failure := by
  exact ⟨rfl, by decide, by decide⟩

/-- C5 amended: whenever the commit invocation rejects with a message
containing "nothing to commit", the sync engine catches the error — no
exception escapes (`syncBody` returns normally, via the dedicated check at
line 828) and no push is attempted — but the repository outcome is tagged
`Failure` (`false`), not treated as a benign non-failure. -/
theorem c5_nothing_to_commit_is_failure (env : SyncEnv) (s a e : Str)
    (hok : env.statusPorcelain = .ok s) (hdirty : (trim s).isEmpty = false)
    (hadd : env.addAll = .ok a)
    (hcommit : env.commit = .error e)
    (hmsg : includes e (strOf "nothing to commit") = true) :
    syncBody env = .ok ⟨Outcome.failure,
      [GitCmd.statusPorcelain, GitCmd.statusBranch] ++ [GitCmd.addAll] ++
        (generateCommitMessageWithAI env.oracle).trace ++
        [GitCmd.commit (chosenCommitMessage env)], []⟩ ∧
    (gitCommitAndPush env).outcome = Outcome.failure ∧
    ((gitCommitAndPush env).trace.all fun c => !isPush c) = true := by
  have hbody : syncBody env = .ok ⟨Outcome.failure,
      [GitCmd.statusPorcelain, GitCmd.statusBranch] ++ [GitCmd.addAll] ++
        (generateCommitMessageWithAI env.oracle).trace ++
        [GitCmd.commit (chosenCommitMessage env)], []⟩ := by
    unfold syncBody
    rw [hok]
    simp [hdirty, hadd, hcommit, hmsg]
  have hrun : gitCommitAndPush env = ⟨Outcome.failure,
      [GitCmd.statusPorcelain, GitCmd.statusBranch] ++ [GitCmd.addAll] ++
        (generateCommitMessageWithAI env.oracle).trace ++
        [GitCmd.commit (chosenCommitMessage env)], []⟩ := by
    unfold gitCommitAndPush
    rw [hbody]
  refine ⟨hbody, by rw [hrun], ?_⟩
  rw [hrun]
  rw [List.all_eq_true]
  intro c hc
  simp only [List.append_assoc, List.cons_append, List.nil_append,
    List.mem_cons, List.mem_append, List.mem_singleton] at hc
  show (!isPush c) = true
  rcases hc with h | h | h | h | h
  · subst h; rfl
  · subst h; rfl
  · subst h; rfl
  · have h1 := generate_trace_nonmut env.oracle c h
    simp [stage_false_push_false c h1]
  · rcases h with h | h
    · subst h; rfl
    · simp at h

theorem attemptAutoFix_trace_pull_mem (env : SyncEnv) (em sg : Str) :
    ∀ c ∈ (attemptAutoFix env em sg).trace, isPullCmd c = true := by
  have h := attemptAutoFix_trace_pull env em sg
  rw [List.all_eq_true] at h
  exact h

theorem askAI_trace_probe_mem (env : AskEnv) (errMsg : Str) :
    ∀ c ∈ (askAIForSolution env errMsg).trace, isToolProbe c = true := by
  have h := askAI_trace_probe env errMsg
  rw [List.all_eq_true] at h
  exact h

theorem toolProbe_elim (c : GitCmd) (h : isToolProbe c = true) :
    isPush c = false ∧ isPushUpstream c = false ∧
    isPullNoRebase c = false ∧ isPullRebase c = false := by
  cases c <;> simp_all [isToolProbe, isPush, isPushUpstream, isPullNoRebase,
    isPullRebase]

theorem pullCmd_elim (c : GitCmd) (h : isPullCmd c = true) :
    isPush c = false ∧ isPushUpstream c = false := by
  cases c <;> simp_all [isPullCmd, isPush, isPushUpstream]

theorem askAI_countP_push (env : AskEnv) (m : Str) :
    ((askAIForSolution env m).trace.countP isPush) = 0 := by
  rw [List.countP_eq_zero]
  intro c hc
  simp [(toolProbe_elim c (askAI_trace_probe_mem env m c hc)).1]

theorem askAI_countP_pushUpstream (env : AskEnv) (m : Str) :
    ((askAIForSolution env m).trace.countP isPushUpstream) = 0 := by
  rw [List.countP_eq_zero]
  intro c hc
  simp [(toolProbe_elim c (askAI_trace_probe_mem env m c hc)).2.1]

theorem askAI_countP_pullNoRebase (env : AskEnv) (m : Str) :
    ((askAIForSolution env m).trace.countP isPullNoRebase) = 0 := by
  rw [List.countP_eq_zero]
  intro c hc
  simp [(toolProbe_elim c (askAI_trace_probe_mem env m c hc)).2.2.1]

theorem askAI_countP_pullRebase (env : AskEnv) (m : Str) :
    ((askAIForSolution env m).trace.countP isPullRebase) = 0 := by
  rw [List.countP_eq_zero]
  intro c hc
  simp [(toolProbe_elim c (askAI_trace_probe_mem env m c hc)).2.2.2]

theorem askLoop_trace_len (env : AskEnv) (problem : Str) :
    ∀ l : List Str, (askLoop env problem l).trace.length ≤ 2 * l.length := by
  intro l
  induction l with
  | nil => simp [askLoop]
  | cons name rest ih =>
    simp only [askLoop]
    cases hw : env.whichTool name
    · simp only [hw, Bool.false_eq_true, if_false, List.length_cons]
      omega
    · simp only [hw, if_true]
      cases hr : env.respond name problem with
      | ok resp =>
        cases he : (trim resp).isEmpty
        · simp only [he, Bool.false_eq_true, if_false, List.length_cons,
            List.length_nil]
          omega
        · simp only [he, if_true, List.length_cons]
          omega
      | error e =>
        simp only [List.length_cons]
        omega

theorem askAI_trace_len (env : AskEnv) (m : Str) :
    (askAIForSolution env m).trace.length ≤ 6 := by
  unfold askAIForSolution
  have h := askLoop_trace_len env
    (strOf "Git push failed with error: \"" ++ m ++
      strOf "\". What is the solution? Answer in one sentence.") aiClis
  simpa [aiClis] using h

/-- C3 (confirmed): for every push failure whose error text contains
"fetch first" or "non-fast-forward", the recovery procedure performs at
most one merge-strategy pull, at most one rebase-strategy pull (and a
rebase pull only when the merge pull failed), and at most one subsequent
push retry; its whole command trace is bounded by nine commands, so the
recovery never loops. -/
theorem c3_autofix_retry_bound (env : SyncEnv) (errMsg : Str)
    (hdiv : (includes (lower errMsg) (strOf "fetch first") ||
             includes (lower errMsg) (strOf "non-fast-forward")) = true) :
    ((recoverPhase env errMsg).trace.countP isPullNoRebase) ≤ 1 ∧
    ((recoverPhase env errMsg).trace.countP isPullRebase) ≤ 1 ∧
    (0 < (recoverPhase env errMsg).trace.countP isPullRebase →
      ∃ e, env.pullNoRebase = .error e) ∧
    ((recoverPhase env errMsg).trace.countP isPush) ≤ 1 ∧
    (recoverPhase env errMsg).trace.length ≤ 9 := by
  have hask1 := askAI_countP_push env.ask errMsg
  have hask2 := askAI_countP_pullNoRebase env.ask errMsg
  have hask3 := askAI_countP_pullRebase env.ask errMsg
  have hasklen := askAI_trace_len env.ask errMsg
  cases hnr : env.pullNoRebase with
  | ok v =>
    have hfix : attemptAutoFix env errMsg (strOf "") =
        ⟨true, [.pullNoRebase], []⟩ := by
      simp only [attemptAutoFix]
      rw [if_pos hdiv, hnr]
    cases hp2 : env.push2 with
    | ok w =>
      simp [recoverPhase, hfix, hp2, List.countP_cons, List.countP_nil,
        isPullNoRebase, isPullRebase, isPush]
    | error u =>
      simp [recoverPhase, hfix, hp2, List.countP_append, List.countP_cons,
        List.countP_nil, isPullNoRebase, isPullRebase, isPush,
        hask1, hask2, hask3]
      omega
  | error e0 =>
    cases hrb : env.pullRebase with
    | ok v =>
      have hfix : attemptAutoFix env errMsg (strOf "") =
          ⟨true, [.pullNoRebase, .pullRebase], []⟩ := by
        simp only [attemptAutoFix]
        rw [if_pos hdiv, hnr, hrb]
      cases hp2 : env.push2 with
      | ok w =>
        simp [recoverPhase, hfix, hp2, List.countP_cons, List.countP_nil,
          isPullNoRebase, isPullRebase, isPush]
      | error u =>
        simp [recoverPhase, hfix, hp2, List.countP_append, List.countP_cons,
          List.countP_nil, isPullNoRebase, isPullRebase, isPush,
          hask1, hask2, hask3]
        omega
    | error v =>
      have hfix : attemptAutoFix env errMsg (strOf "") =
          ⟨false, [.pullNoRebase, .pullRebase], []⟩ := by
        simp only [attemptAutoFix]
        rw [if_pos hdiv, hnr, hrb]
      simp [recoverPhase, hfix, List.countP_append, List.countP_cons,
        List.countP_nil, isPullNoRebase, isPullRebase, isPush,
        hask1, hask2, hask3]
      omega

/-- Witness for C3 at a concrete divergence error. -/
theorem c3_autofix_retry_bound_witness :
    (includes (lower (strOf "rejected: fetch first")) (strOf "fetch first") ||
     includes (lower (strOf "rejected: fetch first"))
       (strOf "non-fast-forward")) = true ∧
    ((recoverPhase baseSync (strOf "rejected: fetch first")).trace.countP
      isPullNoRebase) ≤ 1 ∧
    ((recoverPhase baseSync (strOf "rejected: fetch first")).trace.countP
      isPush) ≤ 1 := by
  have h := c3_autofix_retry_bound baseSync (strOf "rejected: fetch first")
    (by decide)
  exact ⟨by decide, h.1, h.2.2.2.1⟩

theorem recover_trace_shape (env : SyncEnv) (m : Str) :
    ∀ c ∈ (recoverPhase env m).trace,
      isPullCmd c = true ∨ c = GitCmd.push ∨ isToolProbe c = true := by
  intro c hc
  simp only [recoverPhase] at hc
  by_cases hf : (attemptAutoFix env m (strOf "")).ok = true
  · rw [if_pos hf] at hc
    cases hp : env.push2 with
    | ok w =>
      rw [hp] at hc
      simp only [List.mem_append, List.mem_singleton] at hc
      rcases hc with h | h
      · exact .inl (attemptAutoFix_trace_pull_mem env m (strOf "") c h)
      · exact .inr (.inl h)
    | error u =>
      rw [hp] at hc
      simp only [List.mem_append, List.mem_singleton] at hc
      rcases hc with (h | h) | h
      · exact .inl (attemptAutoFix_trace_pull_mem env m (strOf "") c h)
      · exact .inr (.inl h)
      · exact .inr (.inr (askAI_trace_probe_mem env.ask m c h))
  · rw [if_neg hf] at hc
    simp only [List.mem_append] at hc
    rcases hc with h | h
    · exact .inl (attemptAutoFix_trace_pull_mem env m (strOf "") c h)
    · exact .inr (.inr (askAI_trace_probe_mem env.ask m c h))

theorem recover_countP_pushUpstream (env : SyncEnv) (m : Str) :
    ((recoverPhase env m).trace.countP isPushUpstream) = 0 := by
  rw [List.countP_eq_zero]
  intro c hc
  rcases recover_trace_shape env m c hc with h | h | h
  · simp [(pullCmd_elim c h).2]
  · subst h; simp [isPushUpstream]
  · simp [(toolProbe_elim c h).2.1]

/-- C6 (confirmed): whenever the plain `git push` fails and the current
branch name is obtainable, the engine retries the push exactly once with
the upstream explicitly set to `origin/<current-branch-name>` (the trimmed
output of `git branch --show-current`); a successful retry ends the engine
in `Success` with no recovery command, and the recovery procedure is
entered exactly when that retry also fails.  The last conjunct ties the
push section to the whole engine run on the unpushed-commits route. -/
theorem c6_upstream_retry_once (env : SyncEnv) (pe b : Str)
    (hpush : env.push1 = .error pe) (hbranch : env.branchShow = .ok b) :
    ((pushPhase env).trace.countP isPushUpstream) = 1 ∧
    (∀ o, env.pushUpstream = .ok o →
      pushPhase env = ⟨.success,
        [GitCmd.push, GitCmd.branchShow, GitCmd.pushUpstream (trim b)], []⟩) ∧
    (∀ u, env.pushUpstream = .error u →
      pushPhase env = ⟨(recoverPhase env u).outcome,
        [GitCmd.push, GitCmd.branchShow, GitCmd.pushUpstream (trim b)] ++
          (recoverPhase env u).trace,
        (recoverPhase env u).logs⟩) ∧
    (∀ s, env.statusPorcelain = .ok s → trim s = [] →
      hasUnpushedCommits env = true →
      (gitCommitAndPush env).outcome = (pushPhase env).outcome ∧
      (gitCommitAndPush env).trace =
        [GitCmd.statusPorcelain, GitCmd.statusBranch] ++ (pushPhase env).trace) := by
  refine ⟨?_, ?_, ?_, ?_⟩
  · unfold pushPhase
    rw [hpush, hbranch]
    cases hpu : env.pushUpstream with
    | ok o => simp [List.countP_cons, isPushUpstream]
    | error u =>
      simp [List.countP_cons, List.countP_append, isPushUpstream,
        recover_countP_pushUpstream env u]
  · intro o h
    unfold pushPhase
    rw [hpush, hbranch, h]
  · intro u h
    unfold pushPhase
    rw [hpush, hbranch, h]
  · intro s hok htrim hahead
    have hrun : gitCommitAndPush env =
        ⟨(pushPhase env).outcome,
         [GitCmd.statusPorcelain, GitCmd.statusBranch] ++ (pushPhase env).trace,
         (if hasUnpushedCommits env then [foundUnpushedLog] else []) ++
           (pushPhase env).logs⟩ := by
      unfold gitCommitAndPush syncBody
      rw [hok]
      simp [htrim, hahead]
    rw [hrun]
    exact ⟨rfl, rfl⟩

/-- Witness for C6 at a concrete environment where both pushes fail. -/
theorem c6_upstream_retry_once_witness :
    divergedEnv.push1 = .error (strOf "failed to push some refs") ∧
    divergedEnv.branchShow = .ok (strOf "main\n") ∧
    ((pushPhase divergedEnv).trace.countP isPushUpstream) = 1 ∧
    (pushPhase divergedEnv).outcome =
      (recoverPhase divergedEnv (strOf "rejected: fetch first")).outcome := by
  have h := c6_upstream_retry_once divergedEnv
    (strOf "failed to push some refs") (strOf "main\n") rfl rfl
  refine ⟨rfl, rfl, h.1, ?_⟩
  have h3 := h.2.2.1 (strOf "rejected: fetch first") rfl
  rw [h3]

/-- Witness for the amended C5 at a concrete environment. -/
theorem c5_nothing_to_commit_is_failure_witness :
    (trim (strOf "?? a.txt")).isEmpty = false ∧
    includes (strOf "nothing to commit, working tree clean")
      (strOf "nothing to commit") = true ∧
    (gitCommitAndPush nothingToCommitEnv).outcome = Outcome.failure ∧
    ((gitCommitAndPush nothingToCommitEnv).trace.all fun c => !isPush c) = true := by
  have h := c5_nothing_to_commit_is_failure nothingToCommitEnv
    (strOf "?? a.txt") [] (strOf "nothing to commit, working tree clean")
    rfl (by decide) rfl rfl (by decide)
  exact ⟨by decide, by decide, h.2.1, h.2.2⟩

/-- C8 counterexample: the primary oracle emits two lines, and the
message produced for the commit is its whole trimmed output, newline
included — not the first line only. -/
theorem c8_first_line_counterexample :
    (generateCommitMessageWithAI multilineOracle).message =
      some (strOf "feat: change a\nThis explains why.") ∧
    '\n' ∈ strOf "feat: change a\nThis explains why." ∧
    strOf "feat: change a\nThis explains why." ≠
      firstLine (strOf "feat: change a\nThis explains why.") := by
  exact ⟨by decide, by decide, by decide⟩

/-- C8 amended: the fallback oracle path reduces any produced output
to its first line (the returned message never contains a newline), but the
non-empty output of the primary oracle is used whole after trimming and may
span several lines. -/
theorem c8_first_line_amended (env : OracleEnv) :
    (∀ m, (tryFallbackAIs env).message = some m → '\n' ∉ m) ∧
    (∀ sf df cm,
      env.statusPorcelain = .ok sf → (trim sf).isEmpty = false →
      env.diffCachedStat = .ok df → df.isEmpty = false →
      (∃ r, env.projectRoot = some r) →
      env.primary (primaryPrompt env sf df) = .ok cm →
      (trim cm).isEmpty = false →
      (generateCommitMessageWithAI env).message = some (trim cm)) := by
  constructor
  · intro m h
    exact tryFallbackAIs_message_firstLine env m h
  · intro sf df cm hsf hne hdf hdfne hroot hprim hcmne
    obtain ⟨r, hr⟩ := hroot
    unfold generateCommitMessageWithAI
    rw [hsf]
    simp [hne, hdf, hdfne, hr, hprim, hcmne]

/-- Witness for the amended C8 at concrete oracle environments. -/
theorem c8_first_line_amended_witness :
    (tryFallbackAIs fallbackOracle).message = some (strOf "fix: adjust a") ∧
    '\n' ∉ strOf "fix: adjust a" ∧
    (generateCommitMessageWithAI multilineOracle).message =
      some (trim (strOf "feat: change a\nThis explains why.")) := by
  refine ⟨by decide, ?_, ?_⟩
  · exact (c8_first_line_amended fallbackOracle).1 (strOf "fix: adjust a")
      (by decide)
  · exact (c8_first_line_amended multilineOracle).2
      (strOf "M  a.txt") (strOf " a.txt | 2 +-")
      (strOf "feat: change a\nThis explains why.")
      rfl (by decide) rfl (by decide) ⟨strOf "/root/proj", rfl⟩ rfl (by decide)

theorem mergeSummary_empty_right (a : RunSummary) :
    mergeSummary a emptySummary = a := by
  cases a
  simp [mergeSummary, emptySummary]

theorem mergeSummary_assoc (a b c : RunSummary) :
    mergeSummary (mergeSummary a b) c = mergeSummary a (mergeSummary b c) := by
  cases a; cases b; cases c
  simp [mergeSummary, Nat.add_assoc]

theorem stepRepo_merge (acc : RunSummary) (r : RepoEnv) :
    stepRepo acc r = mergeSummary acc (stepRepo emptySummary r) := by
  cases acc
  cases h : (processRepo r).outcome <;>
    simp [stepRepo, h, mergeSummary, emptySummary]

theorem runLoop_shift : ∀ (xs : List RepoEnv) (acc : RunSummary),
    xs.foldl stepRepo acc =
      mergeSummary acc (xs.foldl stepRepo emptySummary) := by
  intro xs
  induction xs with
  | nil => intro acc; simp [mergeSummary_empty_right]
  | cons x xs ih =>
    intro acc
    simp only [List.foldl_cons]
    rw [ih (stepRepo acc x), ih (stepRepo emptySummary x),
      stepRepo_merge acc x, mergeSummary_assoc]

/-- C4 (confirmed): failure isolation across repositories and
error-as-data.  The loop over a concatenation of repositories is the loop
over the first part merged with the loop over the second — so a failing
repository in the first part never prevents later repositories from being
processed and counted — and every exception escaping the sync engine body
is converted by its outer catch into the `Failure` outcome carried as
data, never propagated. -/
theorem c4_failure_isolation (xs ys : List RepoEnv) :
    runGitTasks (xs ++ ys) =
      mergeSummary (runGitTasks xs) (runGitTasks ys) ∧
    (∀ env e tr lg, syncBody env = .error (e, tr, lg) →
      gitCommitAndPush env =
        ⟨Outcome.failure, tr, lg ++ [errorInCommitPushLog e]⟩) := by
  constructor
  · unfold runGitTasks
    rw [List.foldl_append]
    exact runLoop_shift ys (xs.foldl stepRepo emptySummary)
  · intro env e tr lg h
    unfold gitCommitAndPush
    rw [h]

/-- Witness for C4 at a concrete pair of repositories, the first of which
throws at its very first git command. -/
theorem c4_failure_isolation_witness :
    runGitTasks ([repoBadEnv] ++ [repoOkEnv]) =
      mergeSummary (runGitTasks [repoBadEnv]) (runGitTasks [repoOkEnv]) ∧
    syncBody repoBadEnv.sync =
      .error (strOf "not a git repository", [GitCmd.statusPorcelain], []) ∧
    gitCommitAndPush repoBadEnv.sync =
      ⟨Outcome.failure, [GitCmd.statusPorcelain],
       [] ++ [errorInCommitPushLog (strOf "not a git repository")]⟩ := by
  have h := c4_failure_isolation [repoBadEnv] [repoOkEnv]
  exact ⟨h.1, rfl,
    h.2 repoBadEnv.sync (strOf "not a git repository")
      [GitCmd.statusPorcelain] [] rfl⟩

/-- C10 (confirmed): after one full orchestration cycle the three
counters partition the repositories — their sum is the number of
repositories processed, each repository being counted under exactly one
tag per iteration — and the reported failed-repository list has exactly
`failureCount` entries. -/
theorem c10_summary_partition (repos : List RepoEnv) :
    (runGitTasks repos).successCount + (runGitTasks repos).noChangesCount +
      (runGitTasks repos).failureCount = repos.length ∧
    (runGitTasks repos).failedRepos.length = (runGitTasks repos).failureCount := by
  induction repos with
  | nil => exact ⟨rfl, rfl⟩
  | cons r rs ih =>
    have hshift : runGitTasks (r :: rs) =
        mergeSummary (stepRepo emptySummary r) (runGitTasks rs) := by
      unfold runGitTasks
      simp only [List.foldl_cons]
      exact runLoop_shift rs (stepRepo emptySummary r)
    rw [hshift]
    rcases ih with ⟨ih1, ih2⟩
    cases h : (processRepo r).outcome <;>
      (simp [stepRepo, h, mergeSummary, emptySummary]; omega)

theorem gitNotDenySimple : strOf ".git" ∉ denySimple := by decide

theorem RepoAt_cons (e : FSEntry) (rest : List FSEntry) (s : List Str)
    (h : RepoAt rest s) : RepoAt (e :: rest) s := by
  cases h with
  | here c r ch hmem =>
    exact .here _ r ch (List.mem_cons_of_mem e hmem)
  | step c name ch q hmem hdeny hgit hrec =>
    exact .step _ name ch q (List.mem_cons_of_mem e hmem) hdeny hgit hrec

theorem walkSimple_sound : ∀ (c : List FSEntry) (p q : List Str),
    q ∈ walkSimple p c → ∃ s, q = p ++ s ∧ RepoAt c s
  | [], p, q, h => by simp [walkSimple] at h
  | .file n :: rest, p, q, h => by
    simp only [walkSimple] at h
    obtain ⟨s, hq, hr⟩ := walkSimple_sound rest p q h
    exact ⟨s, hq, RepoAt_cons _ _ _ hr⟩
  | .dir name readable ch :: rest, p, q, h => by
    simp only [walkSimple] at h
    rw [List.mem_append] at h
    rcases h with h | h
    · by_cases hdeny : name ∈ denySimple
      · rw [if_pos hdeny] at h
        simp at h
      · rw [if_neg hdeny] at h
        by_cases hgit : name = strOf ".git"
        · rw [if_pos hgit] at h
          rw [List.mem_singleton] at h
          subst h
          subst hgit
          exact ⟨[], by simp, .here _ readable ch (List.mem_cons_self _ _)⟩
        · rw [if_neg hgit] at h
          by_cases hread : readable = true
          · rw [if_pos hread] at h
            obtain ⟨s', hq, hr⟩ := walkSimple_sound ch (p ++ [name]) q h
            subst hread
            refine ⟨name :: s', by simp [hq], ?_⟩
            exact .step _ name ch s' (List.mem_cons_self _ _) hdeny hgit hr
          · rw [if_neg hread] at h
            simp at h
    · obtain ⟨s, hq, hr⟩ := walkSimple_sound rest p q h
      exact ⟨s, hq, RepoAt_cons _ _ _ hr⟩
termination_by c _ _ _ => sizeOf c

theorem gitdir_emits (p : List Str) :
    ∀ (c : List FSEntry) (r : Bool) (ch : List FSEntry),
      FSEntry.dir (strOf ".git") r ch ∈ c → p ∈ walkSimple p c := by
  intro c
  induction c with
  | nil => intro r ch h; simp at h
  | cons e rest ih =>
    intro r ch h
    rcases List.mem_cons.mp h with he | hm
    · subst he
      simp only [walkSimple]
      rw [List.mem_append]
      left
      rw [if_neg gitNotDenySimple]
      simp
    · cases e with
      | file n =>
        simp only [walkSimple]
        exact ih r ch hm
      | dir n rb chb =>
        simp only [walkSimple]
        rw [List.mem_append]
        right
        exact ih r ch hm

theorem step_emits (p : List Str) (name : Str) (ch : List FSEntry)
    (hdeny : name ∉ denySimple) (hgit : ¬name = strOf ".git") :
    ∀ (c : List FSEntry), FSEntry.dir name true ch ∈ c →
      ∀ q, q ∈ walkSimple (p ++ [name]) ch → q ∈ walkSimple p c := by
  intro c
  induction c with
  | nil => intro h; simp at h
  | cons e rest ih =>
    intro h q hq
    rcases List.mem_cons.mp h with he | hm
    · subst he
      simp only [walkSimple]
      rw [List.mem_append]
      left
      rw [if_neg hdeny, if_neg hgit]
      simpa using hq
    · cases e with
      | file n =>
        simp only [walkSimple]
        exact ih hm q hq
      | dir n rb chb =>
        simp only [walkSimple]
        rw [List.mem_append]
        right
        exact ih hm q hq

theorem walkSimple_complete : ∀ (c : List FSEntry) (s : List Str),
    RepoAt c s → ∀ p, p ++ s ∈ walkSimple p c := by
  intro c s h
  induction h with
  | here c r ch hmem =>
    intro p
    simpa using gitdir_emits p c r ch hmem
  | step c name ch q hmem hdeny hgit hrec ih =>
    intro p
    have hq := ih (p ++ [name])
    have hform : p ++ (name :: q) = (p ++ [name]) ++ q := by simp
    rw [hform]
    exact step_emits p name ch hdeny hgit c hmem _ hq

theorem RepoAt_segments : ∀ (c : List FSEntry) (s : List Str), RepoAt c s →
    ∀ seg ∈ s, seg ∉ denySimple ∧ ¬seg = strOf ".git" := by
  intro c s h
  induction h with
  | here _ _ _ _ => intro seg hseg; simp at hseg
  | step c name ch q hmem hdeny hgit hrec ih =>
    intro seg hseg
    rcases List.mem_cons.mp hseg with he | hm
    · subst he; exact ⟨hdeny, hgit⟩
    · exact ih seg hm

/-- C2 counterexample: a directory whose `.git` child entry is a
regular file (the Git marker for a submodule or linked worktree) is *not*
emitted by discovery — the `.git` check sits inside the
`entry.isDirectory()` gate — contradicting the claim that a `.git` file
also triggers emission. -/
theorem c2_git_file_counterexample :
    findAllGitRepositoriesSimple treeGitFile = [] ∧
    [strOf "sub"] ∉ findAllGitRepositoriesSimple treeGitFile := by
  have h : findAllGitRepositoriesSimple treeGitFile = [] := by
    simp +decide [findAllGitRepositoriesSimple, walkSimple, treeGitFile,
      denySimple, strOf]
  refine ⟨h, ?_⟩
  rw [h]
  simp

/-- C2 amended: discovery emits a directory as a repository root
exactly when a chain of readable directories whose names are neither
denylisted nor `.git` leads to a directory having a child entry named
`.git` that is a *directory* — a `.git` child that is a regular file does
not trigger emission — and the walker never descends into the `.git`
entry: no reported path contains a `.git` segment. -/
theorem c2_discovery_characterization :
    (∀ (root : List FSEntry) (q : List Str),
      q ∈ findAllGitRepositoriesSimple root ↔ RepoAt root q) ∧
    (∀ (root : List FSEntry) (q : List Str),
      q ∈ findAllGitRepositoriesSimple root → strOf ".git" ∉ q) := by
  constructor
  · intro root q
    constructor
    · intro h
      obtain ⟨s, hq, hr⟩ := walkSimple_sound root [] q h
      simp only [List.nil_append] at hq
      exact hq ▸ hr
    · intro h
      have hc := walkSimple_complete root q h []
      simpa using hc
  · intro root q hq hmem
    obtain ⟨s, hqe, hr⟩ := walkSimple_sound root [] q hq
    simp only [List.nil_append] at hqe
    subst hqe
    exact (RepoAt_segments root q hr (strOf ".git") hmem).2 rfl

/-- Witness for C2 at a concrete tree with one top-level and one nested
repository. -/
theorem c2_discovery_characterization_witness :
    [strOf "a"] ∈ findAllGitRepositoriesSimple treeNested ∧
    RepoAt treeNested [strOf "a"] ∧
    strOf ".git" ∉ [strOf "a"] := by
  have hmem : [strOf "a"] ∈ findAllGitRepositoriesSimple treeNested := by
    simp +decide [findAllGitRepositoriesSimple, walkSimple, treeNested,
      denySimple, strOf]
  exact ⟨hmem,
    (c2_discovery_characterization.1 treeNested [strOf "a"]).mp hmem,
    c2_discovery_characterization.2 treeNested [strOf "a"] hmem⟩

theorem walkAdvanced_sound : ∀ (rem : List FSEntry) (p : List Str)
    (all : List FSEntry) (ri : RepoInfo), ri ∈ walkAdvanced p all rem →
    ∃ s, ri.path = p ++ s ∧ ∀ seg ∈ s, seg ∉ denyAdvanced ∧ ¬seg = strOf ".git"
  | [], p, all, ri, h => by simp [walkAdvanced] at h
  | .file n :: rest, p, all, ri, h => by
    simp only [walkAdvanced] at h
    exact walkAdvanced_sound rest p all ri h
  | .dir name readable ch :: rest, p, all, ri, h => by
    simp only [walkAdvanced] at h
    rw [List.mem_append] at h
    rcases h with h | h
    · by_cases hdeny : name ∈ denyAdvanced
      · rw [if_pos hdeny] at h
        simp at h
      · rw [if_neg hdeny] at h
        by_cases hgit : name = strOf ".git"
        · rw [if_pos hgit] at h
          rw [List.mem_singleton] at h
          subst h
          exact ⟨[], by simp, by simp⟩
        · rw [if_neg hgit] at h
          by_cases hread : readable = true
          · rw [if_pos hread] at h
            obtain ⟨s', hq, hseg⟩ := walkAdvanced_sound ch (p ++ [name]) ch ri h
            refine ⟨name :: s', by simp [hq], ?_⟩
            intro seg hs
            rcases List.mem_cons.mp hs with he | hm
            · subst he; exact ⟨hdeny, hgit⟩
            · exact hseg seg hm
          · rw [if_neg hread] at h
            simp at h
    · exact walkAdvanced_sound rest p all ri h
termination_by rem _ _ _ _ => sizeOf rem

/-- C9 counterexample: the denylist of the live simple walker omits the
build-output folder names, so a `.git` directory placed under `build/` is
descended into and returned as a repository — contradicting the claim
that build-output folders are never descended into at any depth. -/
theorem c9_build_counterexample :
    [strOf "build"] ∈ findAllGitRepositoriesSimple treeBuild ∧
    findAllGitRepositoriesSimple treeBuild = [[strOf "build"]] := by
  have h : findAllGitRepositoriesSimple treeBuild = [[strOf "build"]] := by
    simp +decide [findAllGitRepositoriesSimple, walkSimple, treeBuild,
      denySimple, strOf]
  rw [h]
  simp

/-- C9 amended: each discovery walker never returns a path through its
own denylist — the simple walker denies `node_modules`, `vendor`,
`.vscode` and `.idea` (but no build-output folders), while the advanced
walker additionally denies `dist` and `build` — so within each walker a
`.git` located anywhere inside a directory denylisted by that walker
is never returned as a repository. -/
theorem c9_denylist_exclusion :
    (∀ (root : List FSEntry) (q : List Str),
      q ∈ findAllGitRepositoriesSimple root → ∀ seg ∈ q, seg ∉ denySimple) ∧
    (∀ (root : List FSEntry) (ri : RepoInfo),
      ri ∈ findAllGitRepositories root → ∀ seg ∈ ri.path, seg ∉ denyAdvanced) := by
  constructor
  · intro root q hq seg hseg
    obtain ⟨s, he, hr⟩ := walkSimple_sound root [] q hq
    simp only [List.nil_append] at he
    subst he
    exact (RepoAt_segments root q hr seg hseg).1
  · intro root ri hri seg hseg
    obtain ⟨s, he, hsegs⟩ := walkAdvanced_sound root [] root ri hri
    simp only [List.nil_append] at he
    rw [he] at hseg
    exact (hsegs seg hseg).1

/-- Witness for C9 at a concrete tree. -/
theorem c9_denylist_exclusion_witness :
    [strOf "a", strOf "b"] ∈ findAllGitRepositoriesSimple treeNested ∧
    (∀ seg ∈ [strOf "a", strOf "b"], seg ∉ denySimple) := by
  have hmem : [strOf "a", strOf "b"] ∈ findAllGitRepositoriesSimple treeNested := by
    simp +decide [findAllGitRepositoriesSimple, walkSimple, treeNested,
      denySimple, strOf]
  exact ⟨hmem, c9_denylist_exclusion.1 treeNested _ hmem⟩
